import Mathlib

/-!
Shallow embedding of the live-quiz session engine of `src/app.py`.

The Python program keeps, per join code (PIN), one `Quiz` dataclass and
mutates it through a handful of callbacks (`start_quiz`, `next_q`,
`prev_q`, `toggle_reveal`, `stop_quiz`) and inline page logic
(add-question, clear-all, join, submit-answer).  Python dictionaries are
modelled as association lists whose update discipline mirrors CPython
dicts: assignment to an existing key replaces the value in place,
assignment to a new key appends at the end; `dict.get(k, d)` is a lookup
with default; `dict.setdefault(k, d)` inserts `(k, d)` only when the key
is absent.  Wall-clock time (`time.time()`) is an explicit integer
parameter of the commands that read it.  Python string comparison is
code-point lexicographic comparison, modelled on the character lists.
-/

namespace QuizApp

/-- `Question` dataclass of `app.py` (lines 18-26). -/
structure Question where
  qid : Nat
  text : String
  a : String
  b : String
  c : String
  d : String
  correct : String
deriving DecidableEq, Repr

/-- One entry of `quiz.responses[qid]`: the dict
`{'name': ..., 'answer': ..., 'correct': ...}` built at lines 332-336. -/
structure Response where
  name : String
  answer : String
  correct : Bool
deriving DecidableEq, Repr

/-- Python-dict lookup `d.get(k)` on an association list: the value at the
first matching key. -/
def dlookup {α β : Type} [DecidableEq α] (k : α) : List (α × β) → Option β
  | [] => none
  | (k', v) :: rest => if k' = k then some v else dlookup k rest

/-- Python-dict assignment `d[k] = v`: replaces the value at the first
occurrence of `k`, appends `(k, v)` at the end when `k` is absent. -/
def dictSet {α β : Type} [DecidableEq α] (k : α) (v : β) : List (α × β) → List (α × β)
  | [] => [(k, v)]
  | (k', v') :: rest => if k' = k then (k, v) :: rest else (k', v') :: dictSet k v rest

/-- Python `d.setdefault(k, v)`: inserts `(k, v)` only when `k` is absent. -/
def dictSetdefault {α β : Type} [DecidableEq α] (k : α) (v : β) (d : List (α × β)) :
    List (α × β) :=
  if (dlookup k d).isSome then d else d ++ [(k, v)]

/-- `Quiz` dataclass of `app.py` (lines 28-42).  `responses` maps a
question id to the list of submitted answers, `scores` maps a participant
name to the points earned. -/
structure Quiz where
  title : String
  time_per_q : Int
  questions : List Question
  participants : List String
  responses : List (Nat × List Response)
  scores : List (String × Nat)
  started : Bool
  current_q : Nat
  reveal : Bool
  started_at : Int
deriving DecidableEq, Repr

/-- `Quiz()` with the dataclass defaults (lines 28-42). -/
def initQuiz : Quiz :=
  { title := ""
    time_per_q := 20
    questions := []
    participants := []
    responses := []
    scores := []
    started := false
    current_q := 0
    reveal := false
    started_at := 0 }

/-- `quiz.scores.get(name, 0)` — the score displayed for a participant. -/
def scoreOf (q : Quiz) (name : String) : Nat :=
  (dlookup name q.scores).getD 0

/-- `quiz.responses.get(qid, [])` — the answer set recorded for a question. -/
def responsesFor (q : Quiz) (qid : Nat) : List Response :=
  (dlookup qid q.responses).getD []

/-- Add-question handler of `page_teacher` (lines 111-118): when every
one of the five text inputs is non-empty (`all([qtext, A, B, C, D])`),
appends a question with id `questions[-1].qid + 1` (1 when the list is
empty); otherwise leaves the quiz unchanged.  The `correct` selectbox
value is not validated. -/
def addQuestion (q : Quiz) (text a b c d correct : String) : Quiz :=
  if text ≠ "" ∧ a ≠ "" ∧ b ≠ "" ∧ c ≠ "" ∧ d ≠ "" then
    let qid := match q.questions.getLast? with
      | some last => last.qid + 1
      | none => 1
    { q with questions := q.questions ++ [⟨qid, text, a, b, c, d, correct⟩] }
  else q

/-- "Borrar todas" handler of `page_teacher` (lines 143-151): empties
questions, responses and scores and resets the live state; the
participant list is not touched. -/
def clearQuiz (q : Quiz) : Quiz :=
  { q with questions := []
           responses := []
           scores := []
           started := false
           current_q := 0
           reveal := false
           started_at := 0 }

/-- `start_quiz` (lines 221-230): returns unchanged when there are no
questions; otherwise sets `started`, jumps to question 1, hides the
reveal, stamps the clock and assigns `responses[1] = []`. -/
def start_quiz (q : Quiz) (now : Int) : Quiz :=
  if q.questions = [] then q
  else
    { q with started := true
             current_q := 1
             reveal := false
             started_at := now
             responses := dictSet 1 [] q.responses }

/-- `next_q` (lines 233-240): when `current_q < len(questions)` advances
one question, hides the reveal, stamps the clock and
`responses.setdefault(current_q, [])`; otherwise unchanged.  The
`started` flag is not consulted. -/
def next_q (q : Quiz) (now : Int) : Quiz :=
  if q.current_q < q.questions.length then
    { q with current_q := q.current_q + 1
             reveal := false
             started_at := now
             responses := dictSetdefault (q.current_q + 1) [] q.responses }
  else q

/-- `prev_q` (lines 243-249): when `current_q > 1` steps back one
question, hides the reveal and stamps the clock; otherwise unchanged. -/
def prev_q (q : Quiz) (now : Int) : Quiz :=
  if 1 < q.current_q then
    { q with current_q := q.current_q - 1
             reveal := false
             started_at := now }
  else q

/-- `toggle_reveal` (lines 252-256). -/
def toggle_reveal (q : Quiz) : Quiz :=
  { q with reveal := !q.reveal }

/-- `stop_quiz` (lines 259-266). -/
def stop_quiz (q : Quiz) : Quiz :=
  { q with started := false
           current_q := 0
           reveal := false
           started_at := 0 }

/-- Join handler of `page_student` (lines 279-293): requires a non-empty
name (line 280); when the name is not yet a participant, appends it and
`scores.setdefault(name, 0)`. -/
def join (q : Quiz) (name : String) : Quiz :=
  if name = "" then q
  else if name ∈ q.participants then q
  else
    { q with participants := q.participants ++ [name]
             scores := dictSetdefault name 0 q.scores }

/-- Submit handler of `page_student` (lines 302-339): nothing happens
unless the quiz is started (line 302); the page crashes on
`next(q for q in ...)` when no question carries id `current_q`
(line 307), leaving the state unchanged; a participant who already has a
response for `current_q` cannot submit again (lines 314-318); otherwise
the response is appended (`setdefault` then `append`, lines 331-336) and
a correct answer adds one point (`scores.get(name, 0) + 1`,
lines 337-338). -/
def submit_answer (q : Quiz) (name letter : String) : Quiz :=
  if q.started then
    match q.questions.find? (fun qq => qq.qid = q.current_q) with
    | none => q
    | some qrow =>
      let cur := responsesFor q q.current_q
      if cur.any (fun r => r.name = name) then q
      else
        let correct_flag := letter = qrow.correct
        let resps1 := dictSetdefault q.current_q [] q.responses
        let old := (dlookup q.current_q resps1).getD []
        let resps2 := dictSet q.current_q (old ++ [⟨name, letter, correct_flag⟩]) resps1
        let scores' :=
          if correct_flag then dictSet name (scoreOf q name + 1) q.scores else q.scores
        { q with responses := resps2, scores := scores' }
  else q

/-- Engine commands: the operations the pages can fire against one quiz.
Wall-clock readings are explicit arguments. -/
inductive Cmd where
  | addQ (text a b c d correct : String)
  | clear
  | start (now : Int)
  | next (now : Int)
  | prev (now : Int)
  | toggle
  | stop
  | join (name : String)
  | submit (name letter : String)
deriving DecidableEq, Repr

/-- One command applied to one quiz. -/
def step (q : Quiz) : Cmd → Quiz
  | .addQ text a b c d correct => addQuestion q text a b c d correct
  | .clear => clearQuiz q
  | .start now => start_quiz q now
  | .next now => next_q q now
  | .prev now => prev_q q now
  | .toggle => toggle_reveal q
  | .stop => stop_quiz q
  | .join name => join q name
  | .submit name letter => submit_answer q name letter

/-- The quiz obtained by running a command sequence on a fresh `Quiz()`. -/
def run (cs : List Cmd) : Quiz :=
  cs.foldl step initQuiz

/-- The countdown `max(int(quiz.time_per_q - (time.time() - quiz.started_at)), 0)`
computed at lines 199 (teacher) and 310 (student), over integer clock
readings. -/
def remaining (q : Quiz) (now : Int) : Int :=
  max (q.time_per_q - (now - q.started_at)) 0

/-- The tally loop of `page_teacher` (lines 203-206): a counts dict
seeded with `{k: 0 for k in ['A','B','C','D']}` and bumped at
`counts[r['answer']]` for each response. -/
def tallyCounts (df : List Response) : List (String × Nat) :=
  df.foldl (fun counts r => dictSet r.answer ((dlookup r.answer counts).getD 0 + 1) counts)
    [("A", 0), ("B", 0), ("C", 0), ("D", 0)]

/-- The tally displayed at line 208: `{k: counts.get(k, 0) for k in ['A','B','C','D']}`
for the responses `quiz.responses.get(qid, [])`. -/
def tally (q : Quiz) (qid : Nat) : List (String × Nat) :=
  let counts := tallyCounts (responsesFor q qid)
  [("A", (dlookup "A" counts).getD 0),
   ("B", (dlookup "B" counts).getD 0),
   ("C", (dlookup "C" counts).getD 0),
   ("D", (dlookup "D" counts).getD 0)]

/-- Python string `<=`: code-point lexicographic comparison of the
character lists. -/
def lexLe : List Char → List Char → Bool
  | [], _ => true
  | _ :: _, [] => false
  | a :: as, b :: bs =>
    if a.toNat < b.toNat then true
    else if b.toNat < a.toNat then false
    else lexLe as bs

/-- The sort key order of line 217, `key=lambda kv: (-kv[1], kv[0])`:
entry `x` may precede entry `y` when `x` has the larger score, or equal
scores and `x`'s name is lexicographically no larger. -/
def lbRel (x y : String × Nat) : Prop :=
  y.2 < x.2 ∨ (x.2 = y.2 ∧ lexLe x.1.data y.1.data = true)

instance lbRel.decidable : DecidableRel lbRel := fun x y =>
  inferInstanceAs (Decidable (y.2 < x.2 ∨ (x.2 = y.2 ∧ lexLe x.1.data y.1.data = true)))

/-- `sorted(quiz.scores.items(), key=lambda kv: (-kv[1], kv[0]))`
(line 217): a stable sort of the score entries under the key order
`lbRel`.  Python's `sorted` is a stable mergesort; since two entries
tied under both `lbRel x y` and `lbRel y x` are equal pairs, every
stable sorting algorithm produces the identical list, so a structural
insertion sort is an exact model. -/
def leaderboard (q : Quiz) : List (String × Nat) :=
  List.insertionSort lbRel q.scores

/-- `QuizManager.new_pin` (lines 49-55) given the stream of values the
successive `random.randint(1000, 9999)` calls would produce: each drawn
pin already in use makes the loop iterate again; a free pin is bound to
a fresh `Quiz()` and returned.  An exhausted stream means the `while
True` loop has not terminated within that many iterations. -/
def new_pin (draws : List Nat) (quizzes : List (String × Quiz)) :
    Option (String × List (String × Quiz)) :=
  match draws with
  | [] => none
  | d :: rest =>
    let pin := toString d
    if (dlookup pin quizzes).isSome then new_pin rest quizzes
    else some (pin, dictSet pin initQuiz quizzes)

/-- A registry in which every 4-digit pin 1000-9999 is in use. -/
def fullRegistry : List (String × Quiz) :=
  (List.range' 1000 9000).map (fun n => (toString n, initQuiz))

/-- Sum of a per-answer-list measure over the whole answers map. -/
def sumResp (f : List Response → Nat) (d : List (Nat × List Response)) : Nat :=
  (d.map (fun p => f p.2)).sum

/-- Whether a response is a correct answer by the given participant. -/
def isCorrectOf (name : String) (r : Response) : Bool :=
  decide (r.name = name) && r.correct

/-- Count of a participant's correct answer records over the whole
answers map. -/
def correctCount (q : Quiz) (name : String) : Nat :=
  sumResp (fun l => l.countP (isCorrectOf name)) q.responses

/-- The engine invariant: per-question answer sets never hold two
records by the same participant, and a participant's score is at least
the number of their correct records. -/
def Inv (s : Quiz) : Prop :=
  (∀ p ∈ s.responses, (p.2.map Response.name).Nodup) ∧
  (∀ name, correctCount s name ≤ scoreOf s name)

/-- One row of the add-question form: the five text inputs and the
selectbox value. -/
structure QInput where
  text : String
  a : String
  b : String
  c : String
  d : String
  correct : String
deriving DecidableEq, Repr

/-- All five text inputs of the form are non-empty
(`all([qtext, A, B, C, D])` at line 112). -/
def QInput.filled (i : QInput) : Prop :=
  i.text ≠ "" ∧ i.a ≠ "" ∧ i.b ≠ "" ∧ i.c ≠ "" ∧ i.d ≠ ""

instance QInput.filled.decidable (i : QInput) : Decidable i.filled :=
  inferInstanceAs (Decidable (_ ∧ _ ∧ _ ∧ _ ∧ _))

/-- A sequence of add-question submissions applied in order. -/
def runAdds (s : Quiz) (inps : List QInput) : Quiz :=
  inps.foldl (fun t i => addQuestion t i.text i.a i.b i.c i.d i.correct) s

/-! ### Association-list (Python dict) lemmas -/

theorem dlookup_mem {α β : Type} [DecidableEq α] {k : α} {v : β} :
    ∀ {d : List (α × β)}, dlookup k d = some v → (k, v) ∈ d := by
  intro d
  induction d with
  | nil => intro h; simp [dlookup] at h
  | cons p rest ih =>
    obtain ⟨k', v'⟩ := p
    intro h
    rw [dlookup] at h
    by_cases hk : k' = k
    · rw [if_pos hk] at h
      cases h
      subst hk
      exact List.mem_cons_self _ _
    · rw [if_neg hk] at h
      exact List.mem_cons_of_mem _ (ih h)

theorem mem_dictSet {α β : Type} [DecidableEq α] {k : α} {v : β} {p : α × β} :
    ∀ {d : List (α × β)}, p ∈ dictSet k v d → p ∈ d ∨ p = (k, v) := by
  intro d
  induction d with
  | nil => intro h; simp [dictSet] at h; right; exact h
  | cons hd rest ih =>
    obtain ⟨k', v'⟩ := hd
    intro h
    rw [dictSet] at h
    by_cases hk : k' = k
    · rw [if_pos hk] at h
      rcases List.mem_cons.mp h with h1 | h1
      · right; exact h1
      · left; exact List.mem_cons_of_mem _ h1
    · rw [if_neg hk] at h
      rcases List.mem_cons.mp h with h1 | h1
      · left; rw [h1]; exact List.mem_cons_self _ _
      · rcases ih h1 with h2 | h2
        · left; exact List.mem_cons_of_mem _ h2
        · right; exact h2

theorem dlookup_dictSet_self {α β : Type} [DecidableEq α] (k : α) (v : β) :
    ∀ (d : List (α × β)), dlookup k (dictSet k v d) = some v := by
  intro d
  induction d with
  | nil => simp [dictSet, dlookup]
  | cons hd rest ih =>
    obtain ⟨k', v'⟩ := hd
    rw [dictSet]
    by_cases hk : k' = k
    · rw [if_pos hk, dlookup, if_pos rfl]
    · rw [if_neg hk, dlookup, if_neg hk]
      exact ih

theorem dlookup_dictSet_ne {α β : Type} [DecidableEq α] {k k' : α} (v : β)
    (hne : k' ≠ k) : ∀ (d : List (α × β)), dlookup k (dictSet k' v d) = dlookup k d := by
  intro d
  induction d with
  | nil => simp [dictSet, dlookup, hne]
  | cons hd rest ih =>
    obtain ⟨a, b⟩ := hd
    rw [dictSet]
    by_cases hk : a = k'
    · rw [if_pos hk, dlookup, if_neg hne, dlookup, hk, if_neg hne]
    · rw [if_neg hk, dlookup, dlookup]
      by_cases h2 : a = k
      · rw [if_pos h2, if_pos h2]
      · rw [if_neg h2, if_neg h2]
        exact ih

theorem dlookup_append_some {α β : Type} [DecidableEq α] {k : α} {v : β}
    {d : List (α × β)} (e : List (α × β)) (h : dlookup k d = some v) :
    dlookup k (d ++ e) = some v := by
  induction d with
  | nil => simp [dlookup] at h
  | cons hd rest ih =>
    obtain ⟨a, b⟩ := hd
    rw [dlookup] at h
    rw [List.cons_append, dlookup]
    by_cases hk : a = k
    · rwa [if_pos hk] at h ⊢
    · rw [if_neg hk] at h ⊢
      exact ih h

theorem dlookup_append_none {α β : Type} [DecidableEq α] {k : α}
    {d : List (α × β)} (e : List (α × β)) (h : dlookup k d = none) :
    dlookup k (d ++ e) = dlookup k e := by
  induction d with
  | nil => simp
  | cons hd rest ih =>
    obtain ⟨a, b⟩ := hd
    rw [dlookup] at h
    rw [List.cons_append, dlookup]
    by_cases hk : a = k
    · rw [if_pos hk] at h; cases h
    · rw [if_neg hk] at h ⊢
      exact ih h

theorem dlookup_dictSetdefault_self {α β : Type} [DecidableEq α] (k : α) (v : β)
    (d : List (α × β)) :
    dlookup k (dictSetdefault k v d) = some ((dlookup k d).getD v) := by
  rw [dictSetdefault]
  cases h : dlookup k d with
  | none =>
    rw [if_neg (by simp), dlookup_append_none _ h, dlookup, if_pos rfl]
    rfl
  | some w =>
    rw [if_pos (by simp)]
    rw [h]
    rfl

theorem dlookup_dictSetdefault_ne {α β : Type} [DecidableEq α] {k k' : α} (v : β)
    (hne : k' ≠ k) (d : List (α × β)) :
    dlookup k (dictSetdefault k' v d) = dlookup k d := by
  rw [dictSetdefault]
  by_cases h : (dlookup k' d).isSome
  · rw [if_pos h]
  · rw [if_neg h]
    cases h2 : dlookup k d with
    | none => rw [dlookup_append_none _ h2, dlookup, if_neg hne, dlookup]
    | some w => exact dlookup_append_some _ h2

theorem mem_dictSetdefault {α β : Type} [DecidableEq α] {k : α} {v : β} {p : α × β}
    {d : List (α × β)} (h : p ∈ dictSetdefault k v d) : p ∈ d ∨ p = (k, v) := by
  rw [dictSetdefault] at h
  by_cases h2 : (dlookup k d).isSome
  · rw [if_pos h2] at h; left; exact h
  · rw [if_neg h2] at h
    rcases List.mem_append.mp h with h3 | h3
    · left; exact h3
    · right; simpa using h3

/-! ### Sum-over-the-answers-map lemmas -/

theorem sumResp_nil (f : List Response → Nat) : sumResp f [] = 0 := rfl

theorem sumResp_cons (f : List Response → Nat) (p : Nat × List Response)
    (d : List (Nat × List Response)) :
    sumResp f (p :: d) = f p.2 + sumResp f d := by
  simp [sumResp]

theorem sumResp_append (f : List Response → Nat) (d e : List (Nat × List Response)) :
    sumResp f (d ++ e) = sumResp f d + sumResp f e := by
  simp [sumResp]

theorem sumResp_dictSet_some (f : List Response → Nat) {k : Nat}
    {v : List Response} {d : List (Nat × List Response)}
    (h : dlookup k d = some v) (w : List Response) :
    sumResp f (dictSet k w d) + f v = sumResp f d + f w := by
  induction d with
  | nil => simp [dlookup] at h
  | cons hd rest ih =>
    obtain ⟨a, b⟩ := hd
    rw [dlookup] at h
    rw [dictSet]
    by_cases hk : a = k
    · rw [if_pos hk] at h ⊢
      cases h
      rw [sumResp_cons, sumResp_cons]
      dsimp only
      omega
    · rw [if_neg hk] at h ⊢
      rw [sumResp_cons, sumResp_cons]
      have := ih h
      omega

theorem sumResp_dictSet_none (f : List Response → Nat) {k : Nat}
    {d : List (Nat × List Response)} (h : dlookup k d = none) (w : List Response) :
    sumResp f (dictSet k w d) = sumResp f d + f w := by
  induction d with
  | nil => simp [dictSet, sumResp]
  | cons hd rest ih =>
    obtain ⟨a, b⟩ := hd
    rw [dlookup] at h
    rw [dictSet]
    by_cases hk : a = k
    · rw [if_pos hk] at h; cases h
    · rw [if_neg hk] at h ⊢
      rw [sumResp_cons, sumResp_cons]
      have := ih h
      omega

theorem sumResp_dictSetdefault (f : List Response → Nat) (k : Nat)
    (v : List Response) (d : List (Nat × List Response)) (hf : f v = 0) :
    sumResp f (dictSetdefault k v d) = sumResp f d := by
  rw [dictSetdefault]
  by_cases h : (dlookup k d).isSome
  · rw [if_pos h]
  · rw [if_neg h, sumResp_append, sumResp_cons, sumResp_nil]
    dsimp only
    rw [hf]
    omega

/-! ### Uniqueness helper -/

theorem countP_le_one_of_nodup_map {α β : Type} [DecidableEq β] (f : α → β) (x : β) :
    ∀ {l : List α}, (l.map f).Nodup → l.countP (fun r => decide (f r = x)) ≤ 1 := by
  intro l
  induction l with
  | nil => intro _; simp
  | cons r t ih =>
    intro h
    rw [List.map_cons, List.nodup_cons] at h
    rw [List.countP_cons]
    by_cases hx : f r = x
    · have hz : t.countP (fun r => decide (f r = x)) = 0 := by
        rw [List.countP_eq_zero]
        intro a ha
        simp only [decide_eq_true_eq]
        intro hax
        exact h.1 (by rw [hx, ← hax]; exact List.mem_map_of_mem f ha)
      simp [hx, hz]
    · rw [if_neg (by simp [hx])]
      have := ih h.2
      omega

theorem inv_of_fields {s s' : Quiz} (hr : s'.responses = s.responses)
    (hs : s'.scores = s.scores) (h : Inv s) : Inv s' := by
  constructor
  · rw [hr]; exact h.1
  · intro name
    show sumResp _ s'.responses ≤ (dlookup name s'.scores).getD 0
    rw [hr, hs]
    exact h.2 name

theorem inv_initQuiz : Inv initQuiz := by
  constructor
  · intro p hp; simp [initQuiz] at hp
  · intro name; simp [correctCount, scoreOf, initQuiz, sumResp, dlookup]

theorem addQuestion_responses (q : Quiz) (t a b c d co : String) :
    (addQuestion q t a b c d co).responses = q.responses := by
  unfold addQuestion; split <;> rfl

theorem addQuestion_scores (q : Quiz) (t a b c d co : String) :
    (addQuestion q t a b c d co).scores = q.scores := by
  unfold addQuestion; split <;> rfl

theorem prev_q_responses (q : Quiz) (now : Int) : (prev_q q now).responses = q.responses := by
  unfold prev_q; split <;> rfl

theorem prev_q_scores (q : Quiz) (now : Int) : (prev_q q now).scores = q.scores := by
  unfold prev_q; split <;> rfl

theorem inv_clearQuiz (q : Quiz) : Inv (clearQuiz q) := by
  constructor
  · intro p hp
    simp [clearQuiz] at hp
  · intro name
    exact Nat.le_refl 0

theorem inv_start (q : Quiz) (now : Int) (h : Inv q) : Inv (start_quiz q now) := by
  unfold start_quiz
  split
  · exact h
  · constructor
    · intro p hp
      rcases mem_dictSet hp with h1 | h1
      · exact h.1 p h1
      · rw [h1]; simp
    · intro name
      show sumResp (fun l => l.countP (isCorrectOf name)) (dictSet 1 [] q.responses) ≤
        (dlookup name q.scores).getD 0
      have h2 : sumResp (fun l => l.countP (isCorrectOf name)) q.responses ≤
          (dlookup name q.scores).getD 0 := h.2 name
      cases hl : dlookup 1 q.responses with
      | some v =>
        have hs := sumResp_dictSet_some (fun l => l.countP (isCorrectOf name)) hl []
        simp only [List.countP_nil] at hs
        omega
      | none =>
        have hs := sumResp_dictSet_none (fun l => l.countP (isCorrectOf name)) hl []
        simp only [List.countP_nil] at hs
        omega

theorem inv_next (q : Quiz) (now : Int) (h : Inv q) : Inv (next_q q now) := by
  unfold next_q
  split
  · constructor
    · intro p hp
      rcases mem_dictSetdefault hp with h1 | h1
      · exact h.1 p h1
      · rw [h1]; simp
    · intro name
      show sumResp (fun l => l.countP (isCorrectOf name))
        (dictSetdefault (q.current_q + 1) [] q.responses) ≤ (dlookup name q.scores).getD 0
      rw [sumResp_dictSetdefault _ _ _ _ (by simp)]
      exact h.2 name
  · exact h

theorem inv_join (q : Quiz) (name0 : String) (h : Inv q) : Inv (join q name0) := by
  unfold join
  split
  · exact h
  · split
    · exact h
    · constructor
      · intro p hp; exact h.1 p hp
      · intro n
        show sumResp (fun l => l.countP (isCorrectOf n)) q.responses ≤
          (dlookup n (dictSetdefault name0 0 q.scores)).getD 0
        by_cases hn : name0 = n
        · subst hn
          rw [dlookup_dictSetdefault_self]
          simp only [Option.getD_some]
          exact h.2 name0
        · rw [dlookup_dictSetdefault_ne _ hn]
          exact h.2 n

theorem countP_submit_update (p : Response → Bool) (D : List (Nat × List Response))
    (cq : Nat) (rec : Response) :
    sumResp (fun l => l.countP p)
      (dictSet cq ((dlookup cq D).getD [] ++ [rec]) (dictSetdefault cq [] D)) =
      sumResp (fun l => l.countP p) D + (if p rec then 1 else 0) := by
  have hold : dlookup cq (dictSetdefault cq [] D) = some ((dlookup cq D).getD []) :=
    dlookup_dictSetdefault_self cq [] D
  have h1 := sumResp_dictSet_some (fun l => l.countP p) hold ((dlookup cq D).getD [] ++ [rec])
  have h2 : sumResp (fun l => l.countP p) (dictSetdefault cq [] D) =
      sumResp (fun l => l.countP p) D :=
    sumResp_dictSetdefault _ _ _ _ (by simp)
  have h3 : List.countP p ((dlookup cq D).getD [] ++ [rec]) =
      List.countP p ((dlookup cq D).getD []) + (if p rec then 1 else 0) := by
    rw [List.countP_append, List.countP_cons, List.countP_nil]
    omega
  omega

theorem inv_submit (q : Quiz) (name letter : String) (h : Inv q) :
    Inv (submit_answer q name letter) := by
  unfold submit_answer
  split
  · split
    · exact h
    · rename_i qrow hfind
      dsimp only
      split
      · exact h
      · rename_i hans
        have hold : dlookup q.current_q (dictSetdefault q.current_q [] q.responses) =
            some ((dlookup q.current_q q.responses).getD []) :=
          dlookup_dictSetdefault_self q.current_q [] q.responses
        unfold responsesFor at hans
        constructor
        · intro p hp
          simp only [hold, Option.getD_some] at hp
          rcases mem_dictSet hp with h1 | h1
          · rcases mem_dictSetdefault h1 with h2 | h2
            · exact h.1 p h2
            · rw [h2]; simp
          · rw [h1]
            have hnodup : (((dlookup q.current_q q.responses).getD []).map Response.name).Nodup := by
              cases hc : dlookup q.current_q q.responses with
              | none => simp
              | some v =>
                simp only [Option.getD_some]
                exact h.1 (q.current_q, v) (dlookup_mem hc)
            have hnotin : name ∉ ((dlookup q.current_q q.responses).getD []).map Response.name := by
              intro hmem
              rcases List.mem_map.mp hmem with ⟨r, hr, hrn⟩
              rw [List.any_eq_true] at hans
              exact hans ⟨r, hr, by simp [hrn]⟩
            simp only [List.map_append, List.map_cons, List.map_nil]
            rw [List.nodup_append]
            refine ⟨hnodup, List.nodup_singleton name, ?_⟩
            intro a ha hb
            simp only [List.mem_singleton] at hb
            subst hb
            exact hnotin ha
        · intro n
          show sumResp (fun l => l.countP (isCorrectOf n)) _ ≤ _
          simp only [hold, Option.getD_some]
          rw [countP_submit_update]
          have h2 : sumResp (fun l => l.countP (isCorrectOf n)) q.responses ≤
              (dlookup n q.scores).getD 0 := h.2 n
          by_cases hcorr : letter = qrow.correct
          · rw [if_pos hcorr]
            by_cases hn : name = n
            · subst hn
              show _ ≤ (dlookup name (dictSet name (scoreOf q name + 1) q.scores)).getD 0
              rw [dlookup_dictSet_self]
              simp only [Option.getD_some]
              have hrec : isCorrectOf name ⟨name, letter, decide (letter = qrow.correct)⟩ = true := by
                simp [isCorrectOf, hcorr]
              rw [if_pos hrec]
              unfold scoreOf
              omega
            · show _ ≤ (dlookup n (dictSet name (scoreOf q name + 1) q.scores)).getD 0
              rw [dlookup_dictSet_ne _ hn]
              have hrec : isCorrectOf n ⟨name, letter, decide (letter = qrow.correct)⟩ = false := by
                simp [isCorrectOf, hn]
              rw [hrec]
              simp only [Bool.false_eq_true, if_false]
              omega
          · rw [if_neg hcorr]
            show _ ≤ (dlookup n q.scores).getD 0
            have hrec : isCorrectOf n ⟨name, letter, decide (letter = qrow.correct)⟩ = false := by
              simp [isCorrectOf, hcorr]
            rw [hrec]
            simp only [Bool.false_eq_true, if_false]
            omega
  · exact h

theorem inv_step (s : Quiz) (c : Cmd) (h : Inv s) : Inv (step s c) := by
  cases c with
  | addQ t a b c d co => exact inv_of_fields (addQuestion_responses s t a b c d co) (addQuestion_scores s t a b c d co) h
  | clear => exact inv_clearQuiz s
  | start now => exact inv_start s now h
  | next now => exact inv_next s now h
  | prev now => exact inv_of_fields (prev_q_responses s now) (prev_q_scores s now) h
  | toggle => exact inv_of_fields rfl rfl h
  | stop => exact inv_of_fields rfl rfl h
  | join name => exact inv_join s name h
  | submit name letter => exact inv_submit s name letter h

theorem inv_foldl : ∀ (cs : List Cmd) (s : Quiz), Inv s → Inv (cs.foldl step s) := by
  intro cs
  induction cs with
  | nil => intro s h; exact h
  | cons c t ih => intro s h; exact ih _ (inv_step s c h)

theorem inv_run (cs : List Cmd) : Inv (run cs) :=
  inv_foldl cs initQuiz inv_initQuiz

/-! ### Double-submission helpers -/

theorem submit_answer_of_answered (q : Quiz) (name l : String)
    (h : (responsesFor q q.current_q).any (fun r => decide (r.name = name)) = true) :
    submit_answer q name l = q := by
  unfold submit_answer
  by_cases hs : q.started
  · rw [if_pos hs]
    cases hfind : q.questions.find? (fun qq => qq.qid = q.current_q) with
    | none => rfl
    | some qrow =>
      dsimp only
      rw [if_pos h]
  · rw [if_neg hs]

theorem submit_submit (q : Quiz) (name l1 l2 : String) :
    submit_answer (submit_answer q name l1) name l2 = submit_answer q name l1 := by
  by_cases hs : q.started
  · cases hfind : q.questions.find? (fun qq => qq.qid = q.current_q) with
    | none =>
      have h1 : submit_answer q name l1 = q := by
        unfold submit_answer
        rw [if_pos hs, hfind]
      have h2 : submit_answer q name l2 = q := by
        unfold submit_answer
        rw [if_pos hs, hfind]
      rw [h1, h2]
    | some qrow =>
      by_cases hans :
          (responsesFor q q.current_q).any (fun r => decide (r.name = name)) = true
      · have h1 : submit_answer q name l1 = q := submit_answer_of_answered q name l1 hans
        rw [h1]
        exact submit_answer_of_answered q name l2 hans
      · have h1 : submit_answer q name l1 =
            { q with
              responses := dictSet q.current_q
                ((dlookup q.current_q (dictSetdefault q.current_q [] q.responses)).getD [] ++
                  [⟨name, l1, decide (l1 = qrow.correct)⟩])
                (dictSetdefault q.current_q [] q.responses)
              scores := if l1 = qrow.correct
                then dictSet name (scoreOf q name + 1) q.scores else q.scores } := by
          unfold submit_answer
          rw [if_pos hs, hfind]
          dsimp only
          rw [if_neg hans]
        rw [h1]
        apply submit_answer_of_answered
        unfold responsesFor
        dsimp only
        rw [dlookup_dictSet_self]
        simp
  · have h1 : submit_answer q name l1 = q := by
      unfold submit_answer
      rw [if_neg hs]
    have h2 : submit_answer q name l2 = q := by
      unfold submit_answer
      rw [if_neg hs]
    rw [h1, h2]

/-! ### Lexicographic comparison lemmas -/

theorem lexLe_total : ∀ (as bs : List Char), lexLe as bs = true ∨ lexLe bs as = true := by
  intro as
  induction as with
  | nil => intro bs; left; rfl
  | cons a as ih =>
    intro bs
    cases bs with
    | nil => right; rfl
    | cons b bs =>
      simp only [lexLe]
      by_cases h1 : a.toNat < b.toNat
      · left; rw [if_pos h1]
      · by_cases h2 : b.toNat < a.toNat
        · right; rw [if_pos h2]
        · rw [if_neg h1, if_neg h2, if_neg h2, if_neg h1]
          exact ih bs

theorem lexLe_trans : ∀ (as bs cs : List Char),
    lexLe as bs = true → lexLe bs cs = true → lexLe as cs = true := by
  intro as
  induction as with
  | nil => intro bs cs h1 h2; rfl
  | cons a as ih =>
    intro bs cs h1 h2
    cases bs with
    | nil => simp [lexLe] at h1
    | cons b bs =>
      cases cs with
      | nil => simp [lexLe] at h2
      | cons c cs =>
        simp only [lexLe] at h1 h2 ⊢
        by_cases hab : a.toNat < b.toNat
        · by_cases hbc : b.toNat < c.toNat
          · rw [if_pos (show a.toNat < c.toNat by omega)]
          · by_cases hcb : c.toNat < b.toNat
            · rw [if_neg hbc, if_pos hcb] at h2
              exact absurd h2 (by simp)
            · rw [if_pos (show a.toNat < c.toNat by omega)]
        · by_cases hba : b.toNat < a.toNat
          · rw [if_neg hab, if_pos hba] at h1
            exact absurd h1 (by simp)
          · by_cases hbc : b.toNat < c.toNat
            · rw [if_pos (show a.toNat < c.toNat by omega)]
            · by_cases hcb : c.toNat < b.toNat
              · rw [if_neg hbc, if_pos hcb] at h2
                exact absurd h2 (by simp)
              · rw [if_neg hab, if_neg hba] at h1
                rw [if_neg hbc, if_neg hcb] at h2
                rw [if_neg (show ¬a.toNat < c.toNat by omega),
                  if_neg (show ¬c.toNat < a.toNat by omega)]
                exact ih bs cs h1 h2

theorem lbRel_total : ∀ x y : String × Nat, lbRel x y ∨ lbRel y x := by
  intro x y
  rcases Nat.lt_trichotomy x.2 y.2 with h | h | h
  · right; left; exact h
  · rcases lexLe_total x.1.data y.1.data with hl | hl
    · left; right; exact ⟨h, hl⟩
    · right; right; exact ⟨h.symm, hl⟩
  · left; left; exact h

theorem lbRel_trans : ∀ x y z : String × Nat, lbRel x y → lbRel y z → lbRel x z := by
  intro x y z h1 h2
  rcases h1 with h1 | ⟨h1e, h1l⟩ <;> rcases h2 with h2 | ⟨h2e, h2l⟩
  · left; omega
  · left; omega
  · left; omega
  · right; exact ⟨by omega, lexLe_trans _ _ _ h1l h2l⟩

/-! ### Registry key lemma -/

theorem dlookup_isSome_of_mem_keys {α β : Type} [DecidableEq α] {k : α} :
    ∀ {d : List (α × β)}, k ∈ d.map Prod.fst → (dlookup k d).isSome = true := by
  intro d
  induction d with
  | nil => intro h; simp at h
  | cons hd rest ih =>
    obtain ⟨a, b⟩ := hd
    intro h
    rw [dlookup]
    by_cases hk : a = k
    · rw [if_pos hk]; rfl
    · rw [if_neg hk]
      apply ih
      simp only [List.map_cons, List.mem_cons] at h
      rcases h with h1 | h1
      · exact absurd h1.symm hk
      · exact h1

/-! ### Tally fold lemma -/

theorem tallyCounts_lookup (k : String) :
    ∀ (df : List Response) (counts : List (String × Nat)),
      (dlookup k (df.foldl
        (fun cnts r => dictSet r.answer ((dlookup r.answer cnts).getD 0 + 1) cnts)
        counts)).getD 0 =
        (dlookup k counts).getD 0 + df.countP (fun r => decide (r.answer = k)) := by
  intro df
  induction df with
  | nil => intro counts; simp
  | cons r t ih =>
    intro counts
    rw [List.foldl_cons, List.countP_cons, ih]
    by_cases hk : r.answer = k
    · subst hk
      rw [dlookup_dictSet_self]
      simp only [Option.getD_some, decide_True, if_true]
      omega
    · rw [dlookup_dictSet_ne _ hk]
      have hd : decide (r.answer = k) = false := by simp [hk]
      rw [hd, if_neg (by simp)]
      omega

/-! ### Question id lemmas -/

theorem addQuestion_qids {q : Quiz} {n : Nat}
    (h : q.questions.map Question.qid = List.range' 1 n) (t a b c d co : String)
    (hf : t ≠ "" ∧ a ≠ "" ∧ b ≠ "" ∧ c ≠ "" ∧ d ≠ "") :
    (addQuestion q t a b c d co).questions.map Question.qid = List.range' 1 (n + 1) := by
  unfold addQuestion
  rw [if_pos hf]
  dsimp only
  cases hqs : q.questions with
  | nil =>
    have hn : n = 0 := by
      rw [hqs] at h
      cases n with
      | zero => rfl
      | succ m =>
        rw [List.range'_concat] at h
        simp at h
    subst hn
    simp [hqs]
  | cons q0 qs =>
    rw [← hqs]
    have hne : q.questions ≠ [] := by rw [hqs]; simp
    cases hq : q.questions.getLast? with
    | none => exact absurd (List.getLast?_eq_none_iff.mp hq) hne
    | some last =>
      cases n with
      | zero =>
        rw [List.range'_zero] at h
        rw [List.map_eq_nil_iff] at h
        exact absurd h hne
      | succ m =>
        have hmap : (q.questions.map Question.qid).getLast? = some last.qid := by
          rw [List.getLast?_map, hq]
          rfl
        rw [h, List.range'_concat, List.getLast?_concat] at hmap
        have hlast : last.qid = 1 + 1 * m := by
          injection hmap with hh
          omega
        rw [List.map_append, h, List.map_cons, List.map_nil]
        dsimp only
        rw [hlast]
        have harith : 1 + 1 * m + 1 = 1 + 1 * (m + 1) := by omega
        rw [harith]
        exact (List.range'_concat 1 (m + 1)).symm

theorem runAdds_qids : ∀ (inps : List QInput) (s : Quiz) (n : Nat),
    s.questions.map Question.qid = List.range' 1 n →
    (∀ i ∈ inps, i.filled) →
    (runAdds s inps).questions.map Question.qid = List.range' 1 (n + inps.length) := by
  intro inps
  induction inps with
  | nil => intro s n h _; simpa using h
  | cons i t ih =>
    intro s n h hf
    have h1 := addQuestion_qids h i.text i.a i.b i.c i.d i.correct
      (hf i (List.mem_cons_self i t))
    have h2 := ih (addQuestion s i.text i.a i.b i.c i.d i.correct) (n + 1) h1
      (fun j hj => hf j (List.mem_cons_of_mem _ hj))
    show (runAdds (addQuestion s i.text i.a i.b i.c i.d i.correct) t).questions.map
      Question.qid = _
    rw [h2]
    simp only [List.length_cons]
    congr 1
    omega

/-! ### Claim theorems -/

/-- C1: after any sequence of engine commands, the answer set of any
question holds at most one record per participant name, and a second
submission by the same participant (the duplicate being detected on the
current question) changes nothing: submitting twice in a row is the same
as submitting once. -/
theorem submit_answer_unique_per_participant (cs : List Cmd) (qid : Nat)
    (name l1 l2 : String) :
    (responsesFor (run cs) qid).countP (fun r => decide (r.name = name)) ≤ 1 ∧
    submit_answer (submit_answer (run cs) name l1) name l2 =
      submit_answer (run cs) name l1 := by
  constructor
  · have hinv := inv_run cs
    unfold responsesFor
    cases hl : dlookup qid (run cs).responses with
    | none => simp
    | some v =>
      simp only [Option.getD_some]
      exact countP_le_one_of_nodup_map Response.name name (hinv.1 (qid, v) (dlookup_mem hl))
  · exact submit_submit (run cs) name l1 l2

/-- C2 counterexample: add a question, start, join Ana, let Ana answer
correctly, then issue StartSession again (reachable after a Stop or
directly, since `start_quiz` has no phase guard): `responses[1]` is
reset to `[]` while Ana's score stays 1, so the stored score does not
equal the number of correct answer records. -/
theorem score_diverges_after_restart :
    scoreOf (run [Cmd.addQ "t" "w" "x" "y" "z" "A", Cmd.start 0, Cmd.join "Ana",
      Cmd.submit "Ana" "A", Cmd.start 5]) "Ana" = 1 ∧
    correctCount (run [Cmd.addQ "t" "w" "x" "y" "z" "A", Cmd.start 0, Cmd.join "Ana",
      Cmd.submit "Ana" "A", Cmd.start 5]) "Ana" = 0 := by
  constructor
  · decide
  · decide

/-- C2 (amended): in every state reachable by engine commands, each
participant's stored score is at least the number of that participant's
answer records with `correct = true`; equality can fail because
`start_quiz` empties question 1's answer set without touching scores. -/
theorem score_ge_correct_records (cs : List Cmd) (name : String) :
    correctCount (run cs) name ≤ scoreOf (run cs) name :=
  (inv_run cs).2 name

/-- C3 counterexample: with two questions, after Start and Next the
session is Running on question 2; `start_quiz` issued again is not
rejected — it mutates the state, jumping back to question 1. -/
theorem start_quiz_mutates_when_running :
    (run [Cmd.addQ "t" "w" "x" "y" "z" "A", Cmd.addQ "u" "w" "x" "y" "z" "B",
      Cmd.start 0, Cmd.next 1]).started = true ∧
    (run [Cmd.addQ "t" "w" "x" "y" "z" "A", Cmd.addQ "u" "w" "x" "y" "z" "B",
      Cmd.start 0, Cmd.next 1]).current_q = 2 ∧
    (start_quiz (run [Cmd.addQ "t" "w" "x" "y" "z" "A", Cmd.addQ "u" "w" "x" "y" "z" "B",
      Cmd.start 0, Cmd.next 1]) 2).current_q = 1 := by
  refine ⟨?_, ?_, ?_⟩
  · decide
  · decide
  · decide

/-- C3 (amended): `start_quiz` is rejected only when the question list
is empty, and then mutates nothing; whenever questions exist it succeeds
— even if the phase is already Running — setting phase Running,
currentQuestionIndex 1, revealed false, phaseStartedAt now, and an empty
answer set for question 1. -/
theorem start_quiz_spec (q : Quiz) (now : Int) :
    (q.questions = [] → start_quiz q now = q) ∧
    (q.questions ≠ [] →
      start_quiz q now =
        { q with started := true
                 current_q := 1
                 reveal := false
                 started_at := now
                 responses := dictSet 1 [] q.responses } ∧
      responsesFor (start_quiz q now) 1 = []) := by
  constructor
  · intro h
    unfold start_quiz
    rw [if_pos h]
  · intro h
    constructor
    · unfold start_quiz
      rw [if_neg h]
    · unfold start_quiz responsesFor
      rw [if_neg h]
      dsimp only
      rw [dlookup_dictSet_self]
      rfl

/-- Witness for C3's amended theorem at a concrete one-question quiz. -/
theorem start_quiz_spec_witness :
    (run [Cmd.addQ "t" "w" "x" "y" "z" "A"]).questions ≠ [] ∧
    responsesFor (start_quiz (run [Cmd.addQ "t" "w" "x" "y" "z" "A"]) 7) 1 = [] :=
  ⟨by decide, ((start_quiz_spec (run [Cmd.addQ "t" "w" "x" "y" "z" "A"]) 7).2 (by decide)).2⟩

/-- C4 counterexample: on a quiz with one question that was never
started, `next_q` is not rejected: it advances `current_q` from 0 to 1
although the phase is not Running. -/
theorem next_q_mutates_when_not_started :
    (run [Cmd.addQ "t" "w" "x" "y" "z" "A"]).started = false ∧
    (run [Cmd.addQ "t" "w" "x" "y" "z" "A"]).current_q = 0 ∧
    (next_q (run [Cmd.addQ "t" "w" "x" "y" "z" "A"]) 5).current_q = 1 := by
  refine ⟨?_, ?_, ?_⟩
  · decide
  · decide
  · decide

/-- C4 (amended): `next_q` is rejected exactly when `current_q` has
reached the number of questions (in particular on the last question),
and a rejected call leaves the state completely unchanged; below that
bound it succeeds regardless of phase, incrementing `current_q`, hiding
the reveal, stamping the clock and creating an empty answer set for the
new question only when none is present. -/
theorem next_q_spec (q : Quiz) (now : Int) :
    (q.questions.length ≤ q.current_q → next_q q now = q) ∧
    (q.current_q < q.questions.length →
      next_q q now =
        { q with current_q := q.current_q + 1
                 reveal := false
                 started_at := now
                 responses := dictSetdefault (q.current_q + 1) [] q.responses }) := by
  constructor
  · intro h
    unfold next_q
    rw [if_neg (by omega)]
  · intro h
    unfold next_q
    rw [if_pos h]

/-- Witness for C4's amended theorem: after Start on a one-question
quiz, `current_q` equals the question count and `next_q` is a no-op. -/
theorem next_q_spec_witness :
    (run [Cmd.addQ "t" "w" "x" "y" "z" "A", Cmd.start 0]).questions.length ≤
      (run [Cmd.addQ "t" "w" "x" "y" "z" "A", Cmd.start 0]).current_q ∧
    next_q (run [Cmd.addQ "t" "w" "x" "y" "z" "A", Cmd.start 0]) 9 =
      run [Cmd.addQ "t" "w" "x" "y" "z" "A", Cmd.start 0] :=
  ⟨by decide, (next_q_spec (run [Cmd.addQ "t" "w" "x" "y" "z" "A", Cmd.start 0]) 9).1 (by decide)⟩

/-- C5 counterexample: the add-question handler validates only the five
text inputs, not the `correct` field — with an empty `correct` the
question is appended rather than rejected. -/
theorem addQuestion_accepts_empty_correct :
    (addQuestion initQuiz "t" "w" "x" "y" "z" "").questions =
      [⟨1, "t", "w", "x", "y", "z", ""⟩] := by
  decide

/-- C5 (amended): add-question is rejected exactly when one of the five
content fields (text, options A-D) is empty — the `correct` label is
not validated — and every successful add on a quiz whose ids are
1..n appends id n+1 (= max existing id + 1), so any sequence of filled
submissions on a fresh or freshly cleared quiz yields ids exactly
1, 2, 3, ... in insertion order. -/
theorem addQuestion_spec :
    (∀ (q : Quiz) (t a b c d co : String),
      t = "" ∨ a = "" ∨ b = "" ∨ c = "" ∨ d = "" → addQuestion q t a b c d co = q) ∧
    (∀ (q : Quiz) (n : Nat) (t a b c d co : String),
      q.questions.map Question.qid = List.range' 1 n →
      t ≠ "" ∧ a ≠ "" ∧ b ≠ "" ∧ c ≠ "" ∧ d ≠ "" →
      (addQuestion q t a b c d co).questions.map Question.qid = List.range' 1 (n + 1)) ∧
    (∀ (q0 : Quiz) (inps : List QInput), (∀ i ∈ inps, i.filled) →
      (runAdds (clearQuiz q0) inps).questions.map Question.qid =
        List.range' 1 inps.length) ∧
    (∀ (inps : List QInput), (∀ i ∈ inps, i.filled) →
      (runAdds initQuiz inps).questions.map Question.qid = List.range' 1 inps.length) := by
  refine ⟨?_, ?_, ?_, ?_⟩
  · intro q t a b c d co h
    unfold addQuestion
    rw [if_neg (by tauto)]
  · intro q n t a b c d co h hf
    exact addQuestion_qids h t a b c d co hf
  · intro q0 inps hf
    have h := runAdds_qids inps (clearQuiz q0) 0 rfl hf
    simpa using h
  · intro inps hf
    have h := runAdds_qids inps initQuiz 0 rfl hf
    simpa using h

/-- Witness for C5's amended theorem: a rejected add with empty text and
two filled adds from a fresh quiz producing ids [1, 2]. -/
theorem addQuestion_spec_witness :
    ("" = "" ∨ "w" = "" ∨ "x" = "" ∨ "y" = "" ∨ "z" = "") ∧
    addQuestion initQuiz "" "w" "x" "y" "z" "A" = initQuiz ∧
    (∀ i ∈ [QInput.mk "t" "w" "x" "y" "z" "A", QInput.mk "u" "p" "r" "s" "v" "B"],
      i.filled) ∧
    (runAdds initQuiz
      [QInput.mk "t" "w" "x" "y" "z" "A",
        QInput.mk "u" "p" "r" "s" "v" "B"]).questions.map Question.qid =
      List.range' 1 2 :=
  ⟨Or.inl rfl,
   addQuestion_spec.1 initQuiz "" "w" "x" "y" "z" "A" (Or.inl rfl),
   by decide,
   addQuestion_spec.2.2.2
     [QInput.mk "t" "w" "x" "y" "z" "A", QInput.mk "u" "p" "r" "s" "v" "B"] (by decide)⟩

/-- C6: the leaderboard is a permutation of the score entries, pairwise
ordered by score descending with ties broken by name ascending
(code-point lexicographic), and it is total: zero participants give the
empty sequence. -/
theorem leaderboard_sorted_total (q : Quiz) :
    (leaderboard q).Perm q.scores ∧
    List.Pairwise lbRel (leaderboard q) ∧
    (q.scores = [] → leaderboard q = []) := by
  refine ⟨List.perm_insertionSort lbRel q.scores, ?_, ?_⟩
  · exact @List.sorted_insertionSort _ lbRel lbRel.decidable ⟨lbRel_total⟩ ⟨lbRel_trans⟩
      q.scores
  · intro h
    unfold leaderboard
    rw [h]
    rfl

/-- Witness for C6 at the fresh quiz: no participants, empty output. -/
theorem leaderboard_sorted_total_witness :
    initQuiz.scores = [] ∧ leaderboard initQuiz = [] :=
  ⟨rfl, (leaderboard_sorted_total initQuiz).2.2 rfl⟩

/-- C7: the countdown equals max(secondsPerQuestion − (now −
phaseStartedAt), 0) over integer clock readings, is never negative, and
read at the instant `phaseStartedAt` was stamped by a successful
start/next/prev it equals `time_per_q`. -/
theorem remaining_seconds_spec (q : Quiz) (now : Int) :
    remaining q now = max (q.time_per_q - (now - q.started_at)) 0 ∧
    0 ≤ remaining q now ∧
    (0 ≤ q.time_per_q → q.questions ≠ [] →
      remaining (start_quiz q now) now = q.time_per_q) ∧
    (0 ≤ q.time_per_q → q.current_q < q.questions.length →
      remaining (next_q q now) now = q.time_per_q) ∧
    (0 ≤ q.time_per_q → 1 < q.current_q →
      remaining (prev_q q now) now = q.time_per_q) := by
  refine ⟨rfl, le_max_right _ _, ?_, ?_, ?_⟩
  · intro ht hq
    unfold start_quiz remaining
    rw [if_neg hq]
    dsimp only
    have h1 : q.time_per_q - (now - now) = q.time_per_q := by ring
    rw [h1]
    exact max_eq_left ht
  · intro ht hn
    unfold next_q remaining
    rw [if_pos hn]
    dsimp only
    have h1 : q.time_per_q - (now - now) = q.time_per_q := by ring
    rw [h1]
    exact max_eq_left ht
  · intro ht hp
    unfold prev_q remaining
    rw [if_pos hp]
    dsimp only
    have h1 : q.time_per_q - (now - now) = q.time_per_q := by ring
    rw [h1]
    exact max_eq_left ht

/-- Witness for C7: immediately after starting a one-question quiz the
countdown reads the full 20 seconds. -/
theorem remaining_seconds_spec_witness :
    ((0 : Int) ≤ (run [Cmd.addQ "t" "w" "x" "y" "z" "A"]).time_per_q ∧
      (run [Cmd.addQ "t" "w" "x" "y" "z" "A"]).questions ≠ []) ∧
    remaining (start_quiz (run [Cmd.addQ "t" "w" "x" "y" "z" "A"]) 7) 7 =
      (run [Cmd.addQ "t" "w" "x" "y" "z" "A"]).time_per_q :=
  ⟨⟨by decide, by decide⟩,
   (remaining_seconds_spec (run [Cmd.addQ "t" "w" "x" "y" "z" "A"]) 7).2.2.1
     (by decide) (by decide)⟩

/-- C8: when every 4-digit pin is already in use, `new_pin` never
returns no matter how many random draws the `while True` loop consumes —
the loop spins forever instead of failing. -/
theorem new_pin_spins_on_full_registry (draws : List Nat)
    (h : ∀ d ∈ draws, 1000 ≤ d ∧ d < 10000) :
    new_pin draws fullRegistry = none := by
  induction draws with
  | nil => rfl
  | cons d rest ih =>
    rw [new_pin]
    have hd := h d (List.mem_cons_self d rest)
    have hmem : toString d ∈ fullRegistry.map Prod.fst := by
      unfold fullRegistry
      rw [List.map_map]
      have hdr : d ∈ List.range' 1000 9000 := by
        rw [List.mem_range'_1]
        omega
      exact List.mem_map_of_mem _ hdr
    rw [if_pos (dlookup_isSome_of_mem_keys hmem)]
    exact ih (fun x hx => h x (List.mem_cons_of_mem _ hx))

/-- Witness for C8 at three concrete in-range draws. -/
theorem new_pin_spins_on_full_registry_witness :
    (∀ d ∈ [1000, 5000, 9999], 1000 ≤ d ∧ d < 10000) ∧
    new_pin [1000, 5000, 9999] fullRegistry = none :=
  ⟨by decide, new_pin_spins_on_full_registry [1000, 5000, 9999] (by decide)⟩

/-- C9: clearing the quiz empties the question list and the answers
map, makes every participant's score read 0, resets the phase flags
(`started = false`, `current_q = 0`, `reveal = false`), and leaves the
participant roster exactly as it was. -/
theorem clearQuiz_spec (q : Quiz) :
    (clearQuiz q).questions = [] ∧
    (clearQuiz q).responses = [] ∧
    (∀ name, scoreOf (clearQuiz q) name = 0) ∧
    (clearQuiz q).started = false ∧
    (clearQuiz q).current_q = 0 ∧
    (clearQuiz q).reveal = false ∧
    (clearQuiz q).participants = q.participants :=
  ⟨rfl, rfl, fun _ => rfl, rfl, rfl, rfl, rfl⟩

/-- C10: for every question id — including one absent from the answers
map — the tally is exactly the four keys A, B, C, D, each counting the
records that chose that option; an absent id yields all zeros. -/
theorem tally_spec (q : Quiz) (qid : Nat) :
    tally q qid =
      [("A", (responsesFor q qid).countP (fun r => decide (r.answer = "A"))),
       ("B", (responsesFor q qid).countP (fun r => decide (r.answer = "B"))),
       ("C", (responsesFor q qid).countP (fun r => decide (r.answer = "C"))),
       ("D", (responsesFor q qid).countP (fun r => decide (r.answer = "D")))] ∧
    (dlookup qid q.responses = none →
      tally q qid = [("A", 0), ("B", 0), ("C", 0), ("D", 0)]) := by
  constructor
  · unfold tally tallyCounts
    dsimp only
    rw [tallyCounts_lookup "A", tallyCounts_lookup "B", tallyCounts_lookup "C",
      tallyCounts_lookup "D"]
    have hA : (dlookup "A" [("A", 0), ("B", 0), ("C", 0), ("D", 0)]).getD 0 = 0 := rfl
    have hB : (dlookup "B" [("A", 0), ("B", 0), ("C", 0), ("D", 0)]).getD 0 = 0 := rfl
    have hC : (dlookup "C" [("A", 0), ("B", 0), ("C", 0), ("D", 0)]).getD 0 = 0 := rfl
    have hD : (dlookup "D" [("A", 0), ("B", 0), ("C", 0), ("D", 0)]).getD 0 = 0 := rfl
    rw [hA, hB, hC, hD]
    simp only [Nat.zero_add]
  · intro h
    unfold tally tallyCounts responsesFor
    rw [h]
    rfl

/-- Witness for C10 at an id with no answer set. -/
theorem tally_spec_witness :
    dlookup 3 initQuiz.responses = none ∧
    tally initQuiz 3 = [("A", 0), ("B", 0), ("C", 0), ("D", 0)] :=
  ⟨rfl, (tally_spec initQuiz 3).2 rfl⟩

end QuizApp
